import Mathlib

/-!
Shallow embedding of the audio-download web service in `app.py`, together with
proofs about its pure helper functions (`sanitize_filename`, `pick_best_audio`),
its URL-validation and error-handling behaviour in the HTTP handlers, and the
`/files` listing endpoint.

Strings are modelled by `String` / `List Char`; Python dictionaries produced by
the extraction library are modelled by a structure carrying exactly the keys the
code reads; the external extraction library and the filesystem are modelled as
explicit inputs to the handler functions.
-/

/-! ## Filename sanitization (`sanitize_filename`) -/

/-- The character class built from the Python raw string `r'<>:"/\\|?*\0'`.
Being a raw string, `\\` denotes two backslashes and `\0` denotes a backslash
followed by the digit zero, so after `re.escape` the regex character class
matches exactly these ten characters: the nine punctuation characters, a
backslash, and the DIGIT `'0'` — it does not match the NUL character. -/
def INVALID_WIN_CHARS : List Char :=
  ['<', '>', ':', '\"', '/', '\\', '|', '?', '*', '0']

/-- Python `str.isspace`, the exact character class removed by `str.strip()`
with no argument: the ASCII whitespace characters U+0009 to U+000D and
U+0020, the separator controls U+001C to U+001F, NEL U+0085, NBSP U+00A0,
and the Unicode space, line and paragraph separators (U+1680, U+2000 to
U+200A, U+2028, U+2029, U+202F, U+205F, U+3000), per the Unicode data used
by CPython 3. -/
def isPySpace (c : Char) : Bool :=
  c == ' ' || c == '\t' || c == '\n' || c == '\x0b' || c == '\x0c' || c == '\r' ||
    c == '\x1c' || c == '\x1d' || c == '\x1e' || c == '\x1f' ||
    c == '\x85' || c == '\xa0' || c == '\u1680' ||
    decide (0x2000 ≤ c.toNat ∧ c.toNat ≤ 0x200a) ||
    c == '\u2028' || c == '\u2029' || c == '\u202f' || c == '\u205f' || c == '\u3000'

/-- `re.sub(f"[{...}]", "_", name)`: replace every character of the class by
an underscore. -/
def replaceInvalid (l : List Char) : List Char :=
  l.map (fun c => if INVALID_WIN_CHARS.contains c then '_' else c)

/-- Remove characters satisfying `p` from the right end (Python `rstrip`). -/
def rstripBy (p : Char → Bool) (l : List Char) : List Char :=
  (l.reverse.dropWhile p).reverse

/-- Python `str.strip()`: whitespace removed from both ends. -/
def pyStrip (l : List Char) : List Char :=
  rstripBy isPySpace (l.dropWhile isPySpace)

/-- The characters removed by the trailing `rstrip(". ")`. -/
def isDotSpace (c : Char) : Bool :=
  c == '.' || c == ' '

/-- The value of the local variable `cleaned` after
`cleaned = re.sub(...); cleaned = cleaned.strip().rstrip(". ")`. -/
def cleanedChars (l : List Char) : List Char :=
  rstripBy isDotSpace (pyStrip (replaceInvalid l))

/-- The reserved Windows device names, as in the `reserved` set literal. -/
def reservedNames : List (List Char) :=
  (["CON", "PRN", "AUX", "NUL", "COM1", "COM2", "COM3", "COM4", "COM5",
    "COM6", "COM7", "COM8", "COM9", "LPT1", "LPT2", "LPT3", "LPT4",
    "LPT5", "LPT6", "LPT7", "LPT8", "LPT9"] : List String).map String.data

/-- Python `str.upper()` (ASCII; the reserved names are all ASCII). -/
def upperChars (l : List Char) : List Char :=
  l.map Char.toUpper

/-- The body of `sanitize_filename` on the character list of the argument:
replace invalid characters, `strip()`, `rstrip(". ")`, prefix `_` when the
uppercased result is a reserved device name, and fall back to `"audio"` when
the result is empty. -/
def sanitizeChars (l : List Char) : List Char :=
  let cleaned := cleanedChars l
  let cleaned1 := if upperChars cleaned ∈ reservedNames then '_' :: cleaned else cleaned
  if cleaned1.isEmpty then "audio".data else cleaned1

/-- `sanitize_filename(name)` from `app.py`. -/
def sanitize_filename (s : String) : String :=
  String.mk (sanitizeChars s.data)

/-- The last character, if any, is not Python whitespace. -/
def noTrailingPySpace (l : List Char) : Bool :=
  l.getLast?.all (fun c => !isPySpace c)

/-! ## Audio format selection (`pick_best_audio`) -/

/-- A yt-dlp format dictionary, restricted to the keys the code reads.
Absent keys are `none` (Python `dict.get` returns `None`). The audio
bitrate `abr` is a number in Python; only its ordering matters here, so it
is carried as an integer. -/
structure Format where
  format_id : Option String := none
  ext : Option String := none
  acodec : Option String := none
  vcodec : Option String := none
  abr : Option Int := none
deriving DecidableEq

/-- The audio-only filter `f.get("vcodec") in (None, "none")`. -/
def audioOnly (f : Format) : Bool :=
  match f.vcodec with
  | none => true
  | some v => v == "none"

/-- `(f.get(key) or "").lower()` as a character list. -/
def lowerOf (o : Option String) : List Char :=
  (o.getD "").data.map Char.toLower

/-- Python substring test `needle in hay`. -/
def hasSub (needle : List Char) : List Char → Bool
  | [] => needle.isEmpty
  | c :: cs => needle.isPrefixOf (c :: cs) || hasSub needle cs

/-- The first component of `score(f)`: `0` for M4A/AAC, `1` for Opus/WebM,
`2` otherwise. -/
def priorityOf (f : Format) : Nat :=
  let ext := lowerOf f.ext
  let acodec := lowerOf f.acodec
  if ext == "m4a".data || "mp4a".data.isPrefixOf acodec || hasSub "aac".data acodec then 0
  else if ext == "webm".data || ext == "opus".data || hasSub "opus".data acodec then 1
  else 2

/-- `f.get("abr") or 0` (a missing or falsy bitrate counts as `0`). -/
def abrOr0 (f : Format) : Int :=
  f.abr.getD 0

/-- Comparison of the sort keys `score(f) = (priority, -abr)` under Python's
lexicographic tuple order: `score f ≤ score g`. -/
def scoreLe (f g : Format) : Bool :=
  decide (priorityOf f < priorityOf g ∨ (priorityOf f = priorityOf g ∧ abrOr0 g ≤ abrOr0 f))

/-- Stable insertion of an element into a list: the element is placed before
the first entry not `le`-below it, so it precedes entries with an equal key. -/
def insertLe {α : Type} (le : α → α → Bool) (a : α) : List α → List α
  | [] => [a]
  | b :: bs => if le a b then a :: b :: bs else b :: insertLe le a bs

/-- Stable sort by the boolean preorder `le`, modelling Python's stable
`list.sort` / `sorted`. -/
def insertionSort {α : Type} (le : α → α → Bool) : List α → List α
  | [] => []
  | a :: as => insertLe le a (insertionSort le as)

/-- `pick_best_audio(formats)` from `app.py`: keep the audio-only formats,
stably sort them by `score`, and return the first, or `None` when there is
none. -/
def pick_best_audio (formats : List Format) : Option Format :=
  if formats.isEmpty then none
  else
    let audios := formats.filter audioOnly
    if audios.isEmpty then none
    else (insertionSort scoreLe audios).head?

/-- State-passing version of `pick_best_audio` making the heap behaviour
explicit: the list comprehension `audios = [f for f in formats if ...]`
allocates a fresh list, `audios.sort(...)` mutates only that fresh list, and
the argument `formats` is returned to the caller untouched. -/
def pick_best_audio_state (formats : List Format) : Option Format × List Format :=
  if formats.isEmpty then (none, formats)
  else
    let audios := formats.filter audioOnly
    if audios.isEmpty then (none, formats)
    else
      let audios1 := insertionSort scoreLe audios
      (audios1.head?, formats)

/-! ## HTTP handler models

The external extraction library (`yt_dlp`) and the filesystem are black boxes:
each call the handler makes to them is modelled as an explicit input. A Python
exception raised by such a call is the `Except.error` case; whether it escapes
the handler depends on the handler's own `try`/`except` blocks, which are
translated below. -/

/-- `info.get(key) or default` for string fields: Python `or` also replaces a
falsy (empty) string by the default. -/
def orStr (o : Option String) (d : String) : String :=
  match o with
  | none => d
  | some s => if s = "" then d else s

/-- The result of `ydl.extract_info`, restricted to the keys the handlers
read. -/
structure Info where
  title : Option String := none
  formats : Option (List Format) := none
deriving DecidableEq

/-- `info.get("formats") or []`. -/
def formatsOf (i : Info) : List Format :=
  match i.formats with
  | none => []
  | some l => l

/-- One round trip of the `POST /downloads` handler with the external world:
the two `YoutubeDL` calls and the three filesystem probes it performs. -/
structure YdlWorld where
  /-- First `extract_info` (with `skip_download`); `ignoreerrors` lets it
  return `None` instead of an info dict, and it can also raise. -/
  extract1 : Except String (Option Info) := Except.ok none
  /-- Second `extract_info` (the actual download); its value is unused. -/
  extract2 : Except String Unit := Except.ok ()
  /-- Whether `DOWNLOAD_DIR / f"{safe_title}.{ext}"` exists. -/
  exactExists : Bool := false
  /-- The result of `find_audio_file(safe_title)`, a file name or `None`. -/
  findResult : Option String := none
  /-- The final `final_path.exists()` check. -/
  finalExists : Bool := false

/-- Outcome of a handler: a JSON response with an HTTP status, or an
exception that escaped the handler. -/
inductive Outcome where
  /-- `jsonify({"error": msg}), status` -/
  | errResp (msg : String) (status : Nat)
  /-- A success response (`200`), carrying the title and the served filename. -/
  | okResp (title : String) (filename : String)
  /-- An exception propagating out of the handler uncaught. -/
  | raised (msg : String)
deriving DecidableEq

/-- `True` exactly on uncaught-exception outcomes. -/
def Outcome.isRaised : Outcome → Bool
  | .raised _ => true
  | _ => false

/-- `video_url = (data.get("url") or "").strip()`: the handler's view of the
submitted URL. `urlField` is `data.get("url")`; a missing body
(`request.get_json(silent=True)` returning `None`) or a missing `"url"` key
both yield `none`. -/
def videoUrlOf (urlField : Option String) : List Char :=
  pyStrip (urlField.getD "").data

/-- `re.match(r"^https?://", video_url)`: the URL begins with `http://` or
`https://`. -/
def urlOk (v : List Char) : Bool :=
  "http://".data.isPrefixOf v || "https://".data.isPrefixOf v

/-- The `POST /downloads` handler `download_audio`. URL validation happens
before any extraction; everything from the first `YoutubeDL` call onward is
inside `try: ... except Exception as e`, so an exception from either
extraction call becomes a 500 JSON response. (The inner `mhtml.unlink()`
cleanup has its own `try`/`except: pass` and cannot change the outcome.) -/
def download_audio (urlField : Option String) (w : YdlWorld) : Outcome :=
  let video_url := videoUrlOf urlField
  if video_url.isEmpty then .errResp "URL is required" 400
  else if !urlOk video_url then .errResp "Invalid URL format" 400
  else
    match w.extract1 with
    | .error e => .errResp ("Error descargando: " ++ e) 500
    | .ok none => .errResp "No se pudo obtener informacion del video." 500
    | .ok (some info) =>
      let title := orStr info.title "audio"
      let safe_title := sanitize_filename title
      match pick_best_audio (formatsOf info) with
      | none => .errResp "No se encontro una pista de audio-only disponible para este video." 500
      | some best =>
        match w.extract2 with
        | .error e => .errResp ("Error descargando: " ++ e) 500
        | .ok _ =>
          let ext := String.mk (lowerOf best.ext)
          let exact := safe_title ++ "." ++ ext
          let final_path := if w.exactExists then some exact else w.findResult
          match final_path with
          | none => .errResp "Se eligio un formato de audio, pero no se encontro el archivo final." 500
          | some fp =>
            if w.finalExists then .okResp title fp
            else .errResp "Se eligio un formato de audio, pero no se encontro el archivo final." 500

/-- The `POST /debug/formats` handler `debug_formats`. It validates the URL,
then calls `extract_info` with no surrounding `try`/`except`: an exception
raised by the extraction call escapes the handler. On success it returns a
summary of the formats list. -/
def debug_formats (urlField : Option String) (extract : Except String Info) : Outcome :=
  let video_url := videoUrlOf urlField
  if !urlOk video_url then .errResp "Invalid URL" 400
  else
    match extract with
    | .error e => .raised e
    | .ok info => .okResp (orStr info.title "") (toString (formatsOf info).length)

/-! ## The `GET /files` endpoint -/

/-- `AUDIO_EXTS`: the allowed audio extensions. -/
def AUDIO_EXTS : List (List Char) :=
  (["m4a", "webm", "opus", "mp4", "m4b", "mp3"] : List String).map String.data

/-- One entry produced by `DOWNLOAD_DIR.rglob("*")`: its final name component
and whether it is a regular file. The recursive walk of the download
directory is modelled as the resulting list of entries. -/
structure FSEntry where
  name : List Char
  isFile : Bool
deriving DecidableEq

/-- `pathlib.PurePath.suffix` on a final name component: the substring from
the last dot to the end, provided that dot is neither the first nor the last
character; otherwise the empty string. -/
def pySuffix (name : List Char) : List Char :=
  let rev := name.reverse
  let after := rev.takeWhile (fun c => c ≠ '.')
  if after.length = rev.length then []
  else if after.isEmpty then []
  else if after.length = rev.length - 1 then []
  else '.' :: after.reverse

/-- `str.lstrip(".")`. -/
def lstripDots (l : List Char) : List Char :=
  l.dropWhile (fun c => c == '.')

/-- Python `str.lower()` (ASCII suffices for extension comparison). -/
def lowerChars (l : List Char) : List Char :=
  l.map Char.toLower

/-- `p.suffix.lstrip(".").lower()`. -/
def extKey (name : List Char) : List Char :=
  lowerChars (lstripDots (pySuffix name))

/-- The filter in `list_files`: `p.is_file() and p.suffix.lstrip(".").lower()
in AUDIO_EXTS`. -/
def keepFile (e : FSEntry) : Bool :=
  e.isFile && decide (extKey e.name ∈ AUDIO_EXTS)

/-- Python string comparison: lexicographic by code point. -/
def strLe : List Char → List Char → Bool
  | [], _ => true
  | _ :: _, [] => false
  | a :: as, b :: bs =>
    if a.toNat < b.toNat then true
    else if b.toNat < a.toNat then false
    else strLe as bs

/-- The `GET /files` handler `list_files`: the sorted list of names of the
regular files under the download directory whose extension is allowed. -/
def list_files (entries : List FSEntry) : List (List Char) :=
  insertionSort strLe ((entries.filter keepFile).map FSEntry.name)

/-! ## Concrete sample data used by the witnesses -/

/-- A video-only format, as reported by yt-dlp for a DASH video stream. -/
def fmtVideo : Format :=
  { format_id := some "137", ext := some "mp4", acodec := some "none",
    vcodec := some "avc1.64001f", abr := none }

/-- An audio-only Opus/WebM format with the highest bitrate. -/
def fmtOpus : Format :=
  { format_id := some "251", ext := some "webm", acodec := some "opus",
    vcodec := some "none", abr := some 160 }

/-- An audio-only AAC/M4A format. -/
def fmtM4a : Format :=
  { format_id := some "140", ext := some "m4a", acodec := some "mp4a.40.2",
    vcodec := none, abr := some 129 }

/-- A sample formats list: one video stream and two audio streams. -/
def demoFormats : List Format := [fmtVideo, fmtOpus, fmtM4a]

/-- Two audio formats tying on priority class and bitrate. -/
def fmtTieA : Format :=
  { format_id := some "139", ext := some "m4a", acodec := some "mp4a.40.5",
    vcodec := some "none", abr := some 128 }

/-- Second format of the tie. -/
def fmtTieB : Format :=
  { format_id := some "140", ext := some "m4a", acodec := some "mp4a.40.2",
    vcodec := some "none", abr := some 128 }

/-- A default world: its contents never matter in the witnesses below,
because validation rejects the request before any external call. -/
def emptyWorld : YdlWorld := {}

/-- A world whose first extraction call raises. -/
def raisingWorld : YdlWorld := { extract1 := Except.error "boom" }

/-- A sample directory listing: two audio files, a text file, and a
non-file entry whose name looks like an audio file. -/
def demoEntries : List FSEntry :=
  [⟨"b.mp3".data, true⟩, ⟨"a.webm".data, true⟩, ⟨"c.txt".data, true⟩,
   ⟨"d.mp3".data, false⟩]

/-! ## Lemmas about the stable sort -/

theorem insertLe_perm {α : Type} (le : α → α → Bool) (a : α) (l : List α) :
    List.Perm (insertLe le a l) (a :: l) := by
  induction l with
  | nil => exact List.Perm.refl _
  | cons b bs ih =>
    simp only [insertLe]
    split
    · exact List.Perm.refl _
    · exact (ih.cons b).trans (List.Perm.swap a b bs)

theorem insertionSort_perm {α : Type} (le : α → α → Bool) (l : List α) :
    List.Perm (insertionSort le l) l := by
  induction l with
  | nil => exact List.Perm.refl _
  | cons a as ih =>
    simp only [insertionSort]
    exact (insertLe_perm le a _).trans (ih.cons a)

theorem pairwise_insertLe {α : Type} {le : α → α → Bool}
    (htrans : ∀ a b c, le a b = true → le b c = true → le a c = true)
    (htotal : ∀ a b, le a b = true ∨ le b a = true)
    (a : α) (l : List α) (h : l.Pairwise (fun x y => le x y = true)) :
    (insertLe le a l).Pairwise (fun x y => le x y = true) := by
  induction l with
  | nil => simp [insertLe]
  | cons b bs ih =>
    rw [List.pairwise_cons] at h
    obtain ⟨hb, hbs⟩ := h
    simp only [insertLe]
    split
    · rename_i hab
      rw [List.pairwise_cons]
      refine ⟨?_, List.pairwise_cons.mpr ⟨hb, hbs⟩⟩
      intro x hx
      rcases List.mem_cons.mp hx with rfl | hx2
      · exact hab
      · exact htrans a b x hab (hb x hx2)
    · rename_i hab
      rw [List.pairwise_cons]
      refine ⟨?_, ih hbs⟩
      intro x hx
      rcases List.mem_cons.mp ((insertLe_perm le a bs).mem_iff.mp hx) with rfl | hx2
      · rcases htotal x b with h1 | h1
        · exact absurd h1 hab
        · exact h1
      · exact hb x hx2

theorem pairwise_insertionSort {α : Type} {le : α → α → Bool}
    (htrans : ∀ a b c, le a b = true → le b c = true → le a c = true)
    (htotal : ∀ a b, le a b = true ∨ le b a = true)
    (l : List α) :
    (insertionSort le l).Pairwise (fun x y => le x y = true) := by
  induction l with
  | nil => simp [insertionSort]
  | cons a as ih =>
    simp only [insertionSort]
    exact pairwise_insertLe htrans htotal a _ ih

theorem head_le_of_pairwise {α : Type} {le : α → α → Bool}
    (hrefl : ∀ a, le a a = true)
    {l : List α} (h : l.Pairwise (fun x y => le x y = true))
    {f : α} (hf : l.head? = some f) : ∀ g ∈ l, le f g = true := by
  cases l with
  | nil => cases hf
  | cons x xs =>
    have hx : x = f := by simpa using hf
    subst hx
    rw [List.pairwise_cons] at h
    intro g hg
    rcases List.mem_cons.mp hg with rfl | hg2
    · exact hrefl g
    · exact h.1 g hg2

/-! ## Order properties of the comparison functions -/

theorem scoreLe_refl (a : Format) : scoreLe a a = true := by
  simp [scoreLe]

theorem scoreLe_trans (a b c : Format) (h1 : scoreLe a b = true) (h2 : scoreLe b c = true) :
    scoreLe a c = true := by
  simp only [scoreLe, decide_eq_true_eq] at h1 h2 ⊢
  omega

theorem scoreLe_total (a b : Format) : scoreLe a b = true ∨ scoreLe b a = true := by
  simp only [scoreLe, decide_eq_true_eq]
  omega

theorem strLe_cons_iff (a b : Char) (as bs : List Char) :
    strLe (a :: as) (b :: bs) = true ↔
      (a.toNat < b.toNat ∨ (a.toNat = b.toNat ∧ strLe as bs = true)) := by
  simp only [strLe]
  split_ifs with h1 h2
  · simpa using Or.inl h1
  · simp only [Bool.false_eq_true, false_iff]
    rintro (h | ⟨he, _⟩) <;> omega
  · constructor
    · intro h
      right
      exact ⟨by omega, h⟩
    · rintro (h | ⟨he, hr⟩)
      · omega
      · exact hr

theorem strLe_refl (l : List Char) : strLe l l = true := by
  induction l with
  | nil => rfl
  | cons a as ih => rw [strLe_cons_iff]; right; exact ⟨rfl, ih⟩

theorem strLe_total (l1 l2 : List Char) : strLe l1 l2 = true ∨ strLe l2 l1 = true := by
  induction l1 generalizing l2 with
  | nil => left; rfl
  | cons a as ih =>
    cases l2 with
    | nil => right; rfl
    | cons b bs =>
      rw [strLe_cons_iff, strLe_cons_iff]
      rcases Nat.lt_trichotomy a.toNat b.toNat with h | h | h
      · left; left; exact h
      · rcases ih bs with h2 | h2
        · left; right; exact ⟨h, h2⟩
        · right; right; exact ⟨h.symm, h2⟩
      · right; left; exact h

theorem strLe_trans (l1 l2 l3 : List Char) (h1 : strLe l1 l2 = true)
    (h2 : strLe l2 l3 = true) : strLe l1 l3 = true := by
  induction l1 generalizing l2 l3 with
  | nil => rfl
  | cons a as ih =>
    cases l2 with
    | nil => simp [strLe] at h1
    | cons b bs =>
      cases l3 with
      | nil => simp [strLe] at h2
      | cons c cs =>
        rw [strLe_cons_iff] at h1 h2 ⊢
        rcases h1 with h1 | ⟨h1e, h1r⟩
        · rcases h2 with h2 | ⟨h2e, _⟩
          · left; omega
          · left; omega
        · rcases h2 with h2 | ⟨h2e, h2r⟩
          · left; omega
          · right; exact ⟨by omega, ih bs cs h1r h2r⟩

theorem mem_of_head?_eq_some {α : Type} {l : List α} {a : α} (h : l.head? = some a) :
    a ∈ l := by
  cases l with
  | nil => cases h
  | cons x xs =>
    have hx : x = a := by simpa using h
    subst hx
    exact List.mem_cons_self x xs

/-- The selected format is below every audio-only format of the input in the
`score` preorder. -/
theorem pick_best_audio_le (fs : List Format) (f : Format)
    (h : pick_best_audio fs = some f) :
    audioOnly f = true ∧ f ∈ fs ∧ ∀ g ∈ fs, audioOnly g = true → scoreLe f g = true := by
  simp only [pick_best_audio] at h
  split at h
  · cases h
  · split at h
    · cases h
    · have hperm := insertionSort_perm scoreLe (fs.filter audioOnly)
      have hpw := pairwise_insertionSort scoreLe_trans scoreLe_total (fs.filter audioOnly)
      have hle := head_le_of_pairwise scoreLe_refl hpw h
      have hmem : f ∈ fs.filter audioOnly :=
        hperm.mem_iff.mp (mem_of_head?_eq_some h)
      rw [List.mem_filter] at hmem
      refine ⟨hmem.2, hmem.1, ?_⟩
      intro g hg hga
      exact hle g (hperm.mem_iff.mpr (List.mem_filter.mpr ⟨hg, hga⟩))

/-- Claim C1: when `pick_best_audio` returns a format, that format comes from
the input list and is audio-only, its priority class (AAC/M4A = 0, Opus/WebM
= 1, others = 2) is minimal among the audio-only formats of the list, and no
audio-only format of the same class has a strictly higher bitrate (missing or
falsy `abr` counting as 0). -/
theorem pick_best_audio_correct (fs : List Format) (f : Format)
    (h : pick_best_audio fs = some f) :
    f ∈ fs ∧ audioOnly f = true ∧
      (∀ g ∈ fs, audioOnly g = true → priorityOf f ≤ priorityOf g) ∧
      (∀ g ∈ fs, audioOnly g = true → priorityOf g = priorityOf f → abrOr0 g ≤ abrOr0 f) := by
  obtain ⟨h1, h2, h3⟩ := pick_best_audio_le fs f h
  refine ⟨h2, h1, ?_, ?_⟩
  · intro g hg hga
    have hs := h3 g hg hga
    simp only [scoreLe, decide_eq_true_eq] at hs
    omega
  · intro g hg hga hpe
    have hs := h3 g hg hga
    simp only [scoreLe, decide_eq_true_eq] at hs
    omega

/-- Witness for C1: on `demoFormats` the function returns the M4A format
(class 0 beats the higher-bitrate Opus format of class 1), and the proved
properties hold there. -/
theorem pick_best_audio_correct_witness :
    fmtM4a ∈ demoFormats ∧ audioOnly fmtM4a = true ∧
      (∀ g ∈ demoFormats, audioOnly g = true → priorityOf fmtM4a ≤ priorityOf g) ∧
      (∀ g ∈ demoFormats, audioOnly g = true →
        priorityOf g = priorityOf fmtM4a → abrOr0 g ≤ abrOr0 fmtM4a) :=
  pick_best_audio_correct demoFormats fmtM4a (by decide)

/-- Claim C3: `pick_best_audio` is a total function and returns `None`
exactly when the list is empty or has no audio-only entry (`sanitize_filename`
is likewise total by construction; both are plain functions of their
argument). -/
theorem pick_best_audio_none_iff (fs : List Format) :
    pick_best_audio fs = none ↔ (fs = [] ∨ ∀ f ∈ fs, audioOnly f = false) := by
  simp only [pick_best_audio]
  split
  · rename_i he
    rw [List.isEmpty_iff] at he
    subst he
    simp
  · rename_i he
    rw [List.isEmpty_iff] at he
    split
    · rename_i ha
      rw [List.isEmpty_iff, List.filter_eq_nil_iff] at ha
      constructor
      · intro _
        right
        intro f hf
        simpa using ha f hf
      · intro _
        rfl
    · rename_i ha
      rw [List.isEmpty_iff] at ha
      constructor
      · intro h
        exfalso
        rw [List.head?_eq_none_iff] at h
        have hperm := insertionSort_perm scoreLe (fs.filter audioOnly)
        rw [h] at hperm
        exact ha hperm.symm.eq_nil
      · rintro (rfl | hall)
        · exact absurd rfl he
        · exact absurd (List.filter_eq_nil_iff.mpr fun f hf => by simp [hall f hf]) ha

/-- Claim C5: the selection heuristic is deterministic — equal inputs give
equal results, ties included, because the embedded computation is a function
of the list alone (Python's stable `list.sort` has no other input). -/
theorem pick_best_audio_deterministic (fs gs : List Format) (h : fs = gs) :
    pick_best_audio fs = pick_best_audio gs := by
  rw [h]

/-- Witness for C5, at a list where two formats tie on class and bitrate. -/
theorem pick_best_audio_deterministic_witness :
    pick_best_audio [fmtTieA, fmtTieB] = pick_best_audio [fmtTieA, fmtTieB] :=
  pick_best_audio_deterministic [fmtTieA, fmtTieB] [fmtTieA, fmtTieB] rfl

/-- Claim C6: `pick_best_audio` does not mutate its argument: in the
state-passing embedding the caller's list comes back unchanged (the in-place
sort acts on the fresh list built by the comprehension), and the returned
selection agrees with the pure function. `sanitize_filename` acts on
immutable Python strings and builds a new one. -/
theorem pick_best_audio_frame (fs : List Format) :
    (pick_best_audio_state fs).2 = fs ∧
      (pick_best_audio_state fs).1 = pick_best_audio fs := by
  constructor
  · simp only [pick_best_audio_state]
    split
    · rfl
    · split <;> rfl
  · simp only [pick_best_audio_state, pick_best_audio]
    split
    · rfl
    · split <;> rfl

/-! ## Lemmas about `sanitize_filename` -/

theorem head?_dropWhile_not {α : Type} (p : α → Bool) (l : List α) {c : α}
    (h : (l.dropWhile p).head? = some c) : p c = false := by
  induction l with
  | nil => cases h
  | cons x xs ih =>
    by_cases hx : p x = true
    · rw [List.dropWhile_cons_of_pos hx] at h
      exact ih h
    · rw [List.dropWhile_cons_of_neg hx] at h
      have hxc : x = c := by simpa using h
      subst hxc
      simpa using hx

theorem dropWhile_eq_self_of_head {α : Type} {p : α → Bool} {l : List α}
    (h : ∀ c, l.head? = some c → p c = false) : l.dropWhile p = l := by
  cases l with
  | nil => rfl
  | cons x xs =>
    apply List.dropWhile_cons_of_neg
    simp [h x rfl]

theorem rstripBy_append (p : Char → Bool) (l : List Char) :
    rstripBy p l ++ (l.reverse.takeWhile p).reverse = l := by
  rw [rstripBy, ← List.reverse_append, List.takeWhile_append_dropWhile, List.reverse_reverse]

theorem mem_of_mem_rstripBy {p : Char → Bool} {l : List Char} {a : Char}
    (h : a ∈ rstripBy p l) : a ∈ l := by
  rw [← rstripBy_append p l]
  exact List.mem_append_left _ h

theorem head?_rstripBy {p : Char → Bool} {l : List Char} (h : rstripBy p l ≠ []) :
    (rstripBy p l).head? = l.head? := by
  conv_rhs => rw [← rstripBy_append p l]
  cases hr : rstripBy p l with
  | nil => exact absurd hr h
  | cons x xs => simp

theorem getLast?_rstripBy_not {p : Char → Bool} {l : List Char} {c : Char}
    (h : (rstripBy p l).getLast? = some c) : p c = false := by
  rw [List.getLast?_eq_head?_reverse, rstripBy, List.reverse_reverse] at h
  exact head?_dropWhile_not p l.reverse h

theorem rstripBy_eq_self_of_getLast {p : Char → Bool} {l : List Char}
    (h : ∀ c, l.getLast? = some c → p c = false) : rstripBy p l = l := by
  rw [rstripBy, dropWhile_eq_self_of_head, List.reverse_reverse]
  intro c hc
  exact h c (by rwa [List.head?_reverse] at hc)

theorem not_invalid_mem_replaceInvalid {l : List Char} {c : Char}
    (h : c ∈ replaceInvalid l) : INVALID_WIN_CHARS.contains c = false := by
  rw [replaceInvalid, List.mem_map] at h
  obtain ⟨c0, _, rfl⟩ := h
  split
  · decide
  · rename_i hc
    simpa using hc

theorem replaceInvalid_eq_self {l : List Char}
    (h : ∀ c ∈ l, INVALID_WIN_CHARS.contains c = false) : replaceInvalid l = l := by
  rw [replaceInvalid]
  have heq : l.map (fun c => if INVALID_WIN_CHARS.contains c then '_' else c) = l.map id := by
    apply List.map_congr_left
    intro a ha
    rw [h a ha, if_neg Bool.false_ne_true]
    rfl
  rw [heq, List.map_id]

theorem mem_cleanedChars {l : List Char} {c : Char} (h : c ∈ cleanedChars l) :
    c ∈ replaceInvalid l := by
  rw [cleanedChars] at h
  have h1 := mem_of_mem_rstripBy h
  rw [pyStrip] at h1
  have h2 := mem_of_mem_rstripBy h1
  exact List.Sublist.mem h2 (List.dropWhile_sublist _)

theorem head?_cleanedChars_not_space {l : List Char} {c : Char}
    (h : (cleanedChars l).head? = some c) : isPySpace c = false := by
  have hne : cleanedChars l ≠ [] := by
    intro he
    rw [he] at h
    cases h
  rw [cleanedChars] at h hne
  rw [head?_rstripBy hne] at h
  have hne2 : pyStrip (replaceInvalid l) ≠ [] := by
    intro he
    rw [he] at h
    cases h
  rw [pyStrip] at h hne2
  rw [head?_rstripBy hne2] at h
  exact head?_dropWhile_not isPySpace _ h

theorem getLast?_cleanedChars_not_dotspace {l : List Char} {c : Char}
    (h : (cleanedChars l).getLast? = some c) : isDotSpace c = false :=
  getLast?_rstripBy_not h

theorem getLast?_cons_of_ne_nil {α : Type} (a : α) {l : List α} (h : l ≠ []) :
    (a :: l).getLast? = l.getLast? := by
  cases l with
  | nil => exact absurd rfl h
  | cons x xs => exact List.getLast?_cons_cons

/-- Closed-form case analysis of `sanitizeChars`: the reserved-name branch
always produces a nonempty list, so the `or "audio"` fallback fires exactly
when the cleaned name is empty. -/
theorem sanitizeChars_eq (l : List Char) :
    sanitizeChars l =
      if upperChars (cleanedChars l) ∈ reservedNames then '_' :: cleanedChars l
      else if cleanedChars l = [] then "audio".data
      else cleanedChars l := by
  rw [show sanitizeChars l =
        (if (if upperChars (cleanedChars l) ∈ reservedNames
              then '_' :: cleanedChars l else cleanedChars l).isEmpty
         then "audio".data
         else if upperChars (cleanedChars l) ∈ reservedNames
              then '_' :: cleanedChars l else cleanedChars l) from rfl]
  by_cases hres : upperChars (cleanedChars l) ∈ reservedNames
  · rw [if_pos hres]
    rw [show (('_' :: cleanedChars l)).isEmpty = false from rfl]
    rw [if_neg Bool.false_ne_true, if_pos hres]
  · rw [if_neg hres]
    by_cases hc : cleanedChars l = []
    · have hE : (cleanedChars l).isEmpty = true := List.isEmpty_iff.mpr hc
      rw [hE, if_pos rfl, if_neg hres, if_pos hc]
    · have hE : ¬((cleanedChars l).isEmpty = true) := fun hx => hc (List.isEmpty_iff.mp hx)
      rw [if_neg hE, if_neg hres, if_neg hc]

theorem sanitizeChars_no_invalid {l : List Char} {c : Char} (h : c ∈ sanitizeChars l) :
    INVALID_WIN_CHARS.contains c = false := by
  rw [sanitizeChars_eq] at h
  by_cases hres : upperChars (cleanedChars l) ∈ reservedNames
  · rw [if_pos hres] at h
    rcases List.mem_cons.mp h with rfl | h2
    · decide
    · exact not_invalid_mem_replaceInvalid (mem_cleanedChars h2)
  · rw [if_neg hres] at h
    by_cases hc : cleanedChars l = []
    · rw [if_pos hc] at h
      have hall : ∀ x ∈ "audio".data, INVALID_WIN_CHARS.contains x = false := by decide
      exact hall c h
    · rw [if_neg hc] at h
      exact not_invalid_mem_replaceInvalid (mem_cleanedChars h)

theorem sanitizeChars_head_not_space {l : List Char} {c : Char}
    (h : (sanitizeChars l).head? = some c) : isPySpace c = false := by
  rw [sanitizeChars_eq] at h
  by_cases hres : upperChars (cleanedChars l) ∈ reservedNames
  · rw [if_pos hres, List.head?_cons] at h
    have hc : c = '_' := (Option.some.inj h).symm
    subst hc
    decide
  · rw [if_neg hres] at h
    by_cases hc : cleanedChars l = []
    · rw [if_pos hc, show ("audio".data).head? = some 'a' from rfl] at h
      have hca : c = 'a' := (Option.some.inj h).symm
      subst hca
      decide
    · rw [if_neg hc] at h
      exact head?_cleanedChars_not_space h

theorem sanitizeChars_getLast_not_dotspace {l : List Char} {c : Char}
    (h : (sanitizeChars l).getLast? = some c) : isDotSpace c = false := by
  rw [sanitizeChars_eq] at h
  by_cases hres : upperChars (cleanedChars l) ∈ reservedNames
  · rw [if_pos hres] at h
    have hcne : cleanedChars l ≠ [] := by
      intro he
      rw [he] at hres
      exact absurd hres (by decide)
    rw [getLast?_cons_of_ne_nil '_' hcne] at h
    exact getLast?_cleanedChars_not_dotspace h
  · rw [if_neg hres] at h
    by_cases hc : cleanedChars l = []
    · rw [if_pos hc, show ("audio".data).getLast? = some 'o' from rfl] at h
      have hco : c = 'o' := (Option.some.inj h).symm
      subst hco
      decide
    · rw [if_neg hc] at h
      exact getLast?_cleanedChars_not_dotspace h

theorem sanitizeChars_not_reserved (l : List Char) :
    upperChars (sanitizeChars l) ∉ reservedNames := by
  rw [sanitizeChars_eq]
  by_cases hres : upperChars (cleanedChars l) ∈ reservedNames
  · rw [if_pos hres]
    intro hmem
    have hhead : ∀ n ∈ reservedNames, n.head? ≠ some '_' := by decide
    exact hhead _ hmem rfl
  · rw [if_neg hres]
    by_cases hc : cleanedChars l = []
    · rw [if_pos hc]
      decide
    · rw [if_neg hc]
      exact hres

theorem sanitizeChars_ne_nil (l : List Char) : sanitizeChars l ≠ [] := by
  rw [sanitizeChars_eq]
  by_cases hres : upperChars (cleanedChars l) ∈ reservedNames
  · rw [if_pos hres]
    exact List.cons_ne_nil _ _
  · rw [if_neg hres]
    by_cases hc : cleanedChars l = []
    · rw [if_pos hc]
      decide
    · rw [if_neg hc]
      exact hc

theorem sanitizeChars_idem {l : List Char}
    (h : ∀ c, (sanitizeChars l).getLast? = some c → isPySpace c = false) :
    sanitizeChars (sanitizeChars l) = sanitizeChars l := by
  have hne := sanitizeChars_ne_nil l
  have hinv : ∀ c ∈ sanitizeChars l, INVALID_WIN_CHARS.contains c = false :=
    fun c hc => sanitizeChars_no_invalid hc
  have hrepl : replaceInvalid (sanitizeChars l) = sanitizeChars l :=
    replaceInvalid_eq_self hinv
  have hstrip : pyStrip (sanitizeChars l) = sanitizeChars l := by
    rw [pyStrip, dropWhile_eq_self_of_head (fun c hc => sanitizeChars_head_not_space hc)]
    exact rstripBy_eq_self_of_getLast h
  have hdot : rstripBy isDotSpace (sanitizeChars l) = sanitizeChars l :=
    rstripBy_eq_self_of_getLast (fun c hc => sanitizeChars_getLast_not_dotspace hc)
  have hclean : cleanedChars (sanitizeChars l) = sanitizeChars l := by
    rw [cleanedChars, hrepl, hstrip, hdot]
  rw [sanitizeChars_eq (sanitizeChars l), hclean]
  rw [if_neg (sanitizeChars_not_reserved l), if_neg hne]

/-! ## Claims about `sanitize_filename` -/

/-- Claim C2 (code bug): because `INVALID_WIN_CHARS` is a Python *raw*
string, its `\0` is a backslash and a digit zero, not NUL. The function
therefore leaves an embedded NUL character untouched (first conjunct) while
replacing the perfectly valid digit `'0'` with an underscore (second
conjunct), contradicting the specified stripping of characters invalid on
common filesystems; moreover stripping trailing dots can expose trailing
non-space whitespace (third conjunct), contradicting the no-trailing-
whitespace part of the claim. -/
theorem sanitize_filename_nul_bug :
    sanitize_filename (String.mk ['a', '\x00', 'b']) = String.mk ['a', '\x00', 'b'] ∧
      sanitize_filename "Top 10" = "Top 1_" ∧
      sanitize_filename (String.mk ['a', '\t', '.']) = String.mk ['a', '\t'] := by
  decide

/-- Claim C8: the result of `sanitize_filename` is never the empty string,
and whenever cleaning reduces the name to the empty string the fallback
`"audio"` is returned. -/
theorem sanitize_filename_nonempty (s : String) :
    sanitize_filename s ≠ "" ∧ (cleanedChars s.data = [] → sanitize_filename s = "audio") := by
  constructor
  · intro he
    exact sanitizeChars_ne_nil s.data (congrArg String.data he)
  · intro hc
    have hs : sanitizeChars s.data = "audio".data := by
      simp only [sanitizeChars, hc]
      decide
    rw [sanitize_filename, hs]

/-- Witness for C8 at the input made of three dots, which cleans to the
empty string and falls back to `"audio"`. -/
theorem sanitize_filename_nonempty_witness :
    sanitize_filename "..." = "audio" ∧ sanitize_filename "..." ≠ "" :=
  ⟨(sanitize_filename_nonempty "...").2 (by decide), (sanitize_filename_nonempty "...").1⟩

/-- Claim C9 counterexample: `sanitize_filename` is not idempotent. On the
input `"a\t."` the trailing `rstrip(". ")` removes the dot and exposes a
trailing tab; a second application strips that tab, giving a different
result (`"a"` versus `"a\t"`). -/
theorem sanitize_filename_not_idempotent :
    sanitize_filename (sanitize_filename (String.mk ['a', '\t', '.'])) ≠
      sanitize_filename (String.mk ['a', '\t', '.']) := by
  decide

/-- Claim C9 (amended): `sanitize_filename` is idempotent at every input
whose sanitized result does not end in a whitespace character — the only
failures are inputs where stripping trailing dots and spaces exposes a
non-space whitespace character at the end. -/
theorem sanitize_filename_idempotent (s : String)
    (h : noTrailingPySpace (sanitize_filename s).data = true) :
    sanitize_filename (sanitize_filename s) = sanitize_filename s := by
  have h' : ∀ c, (sanitizeChars s.data).getLast? = some c → isPySpace c = false := by
    intro c hc
    have ht : ((sanitizeChars s.data).getLast?).all (fun c => !isPySpace c) = true := h
    rw [hc] at ht
    simpa using ht
  exact congrArg String.mk (sanitizeChars_idem h')

/-- Witness for amended C9 at a name with punctuation, spaces and a
reserved-character replacement. -/
theorem sanitize_filename_idempotent_witness :
    noTrailingPySpace (sanitize_filename "My Song: Live?").data = true ∧
      sanitize_filename (sanitize_filename "My Song: Live?") =
        sanitize_filename "My Song: Live?" :=
  ⟨by decide, sanitize_filename_idempotent "My Song: Live?" (by decide)⟩

/-! ## Claims about the HTTP handlers -/

/-- Claim C4: the `POST /downloads` handler validates the submitted URL
before any extraction. A missing JSON body, a missing `url` field, or a url
that strips to the empty string gives a 400 `"URL is required"` error; a
nonempty (stripped) url that does not begin with `http://` or `https://`
gives a 400 `"Invalid URL format"` error — in both cases for every state of
the external world, so no extraction is consulted. -/
theorem download_audio_validates_url (u : Option String) (w : YdlWorld) :
    (videoUrlOf u = [] → download_audio u w = Outcome.errResp "URL is required" 400) ∧
      (videoUrlOf u ≠ [] → urlOk (videoUrlOf u) = false →
        download_audio u w = Outcome.errResp "Invalid URL format" 400) := by
  constructor
  · intro h
    simp [download_audio, h]
  · intro h1 h2
    have hE : (videoUrlOf u).isEmpty = false := by
      cases hl : videoUrlOf u with
      | nil => exact absurd hl h1
      | cons x xs => rfl
    simp [download_audio, hE, h2]

/-- Witness for C4: a whitespace-only url is rejected as missing, and an
`ftp://` url is rejected as invalid, whatever the world contains. -/
theorem download_audio_validates_url_witness :
    download_audio (some "   ") emptyWorld = Outcome.errResp "URL is required" 400 ∧
      download_audio (some "ftp://host/file") emptyWorld =
        Outcome.errResp "Invalid URL format" 400 :=
  ⟨(download_audio_validates_url (some "   ") emptyWorld).1 (by decide),
   (download_audio_validates_url (some "ftp://host/file") emptyWorld).2
     (by decide) (by decide)⟩

/-- Claim C7 counterexample: not every endpoint catches exceptions. In
`POST /debug/formats` the extraction call has no surrounding `try`/`except`,
so an extraction failure propagates out of the handler instead of becoming a
JSON error response. -/
theorem debug_formats_uncaught :
    debug_formats (some "http://example.com/v") (Except.error "ExtractorError") =
      Outcome.raised "ExtractorError" := by
  decide

/-- Claim C7 (amended): exceptions are caught broadly only in the
`POST /downloads` handler, whose `try`/`except Exception` turns any failure
of the two extraction calls into a JSON 400/500 response; the
`POST /debug/formats` handler validates the URL but lets every extraction
exception escape uncaught. -/
theorem error_handling_amended (u : Option String) (w : YdlWorld) (e : String) :
    (download_audio u w).isRaised = false ∧
      debug_formats (some "http://example.com/v") (Except.error e) = Outcome.raised e := by
  constructor
  · obtain ⟨e1, e2, ex, fr, fe⟩ := w
    simp only [download_audio]
    repeat (first | rfl | split)
  · rfl

/-! ## Claim about the file listing -/

/-- Claim C10: `GET /files` returns exactly the names of the regular files
(among the recursively enumerated entries) whose extension — lowercased,
without the leading dot — is one of the allowed audio extensions: the result
is a permutation of those names, it is sorted in ascending lexicographic
order, and every listed name comes from such a file, so files with any other
extension never appear. -/
theorem list_files_correct (entries : List FSEntry) :
    List.Perm (list_files entries)
        ((entries.filter fun e => e.isFile && decide (extKey e.name ∈ AUDIO_EXTS)).map
          FSEntry.name) ∧
      List.Pairwise (fun a b => strLe a b = true) (list_files entries) ∧
      ∀ nm ∈ list_files entries, ∃ e ∈ entries,
        e.isFile = true ∧ extKey e.name ∈ AUDIO_EXTS ∧ e.name = nm := by
  refine ⟨insertionSort_perm strLe _, pairwise_insertionSort strLe_trans strLe_total _, ?_⟩
  intro nm hnm
  have hperm := insertionSort_perm strLe ((entries.filter keepFile).map FSEntry.name)
  have hmem : nm ∈ (entries.filter keepFile).map FSEntry.name := hperm.mem_iff.mp hnm
  rw [List.mem_map] at hmem
  obtain ⟨e, he, rfl⟩ := hmem
  rw [List.mem_filter] at he
  have hk := he.2
  rw [keepFile, Bool.and_eq_true] at hk
  refine ⟨e, he.1, hk.1, ?_, rfl⟩
  simpa using hk.2

/-- Witness for C3 at a singleton list with no audio-only entry. -/
theorem pick_best_audio_none_iff_witness :
    pick_best_audio [fmtVideo] = none ↔
      ([fmtVideo] = [] ∨ ∀ f ∈ [fmtVideo], audioOnly f = false) :=
  pick_best_audio_none_iff [fmtVideo]

/-- Witness for C6 on the sample formats list. -/
theorem pick_best_audio_frame_witness :
    (pick_best_audio_state demoFormats).2 = demoFormats ∧
      (pick_best_audio_state demoFormats).1 = pick_best_audio demoFormats :=
  pick_best_audio_frame demoFormats

/-- Witness for amended C7: with a raising extractor the downloads handler
still answers with a JSON response, while the debug handler raises. -/
theorem error_handling_amended_witness :
    (download_audio (some "https://a.example/v") raisingWorld).isRaised = false ∧
      debug_formats (some "http://example.com/v") (Except.error "boom") =
        Outcome.raised "boom" :=
  error_handling_amended (some "https://a.example/v") raisingWorld "boom"

/-- Witness for C10 on the sample directory listing. -/
theorem list_files_correct_witness :
    List.Perm (list_files demoEntries)
        ((demoEntries.filter fun e => e.isFile && decide (extKey e.name ∈ AUDIO_EXTS)).map
          FSEntry.name) ∧
      List.Pairwise (fun a b => strLe a b = true) (list_files demoEntries) ∧
      ∀ nm ∈ list_files demoEntries, ∃ e ∈ demoEntries,
        e.isFile = true ∧ extKey e.name ∈ AUDIO_EXTS ∧ e.name = nm :=
  list_files_correct demoEntries

/-! ## Evaluation checks -/

example : sanitize_filename "ab<c" = "ab_c" := by decide
example : sanitize_filename "con" = "_con" := by decide
example : sanitize_filename " x. " = "x" := by decide
example : sanitize_filename "..." = "audio" := by decide
example : pick_best_audio [] = none := by decide
example : pySuffix "a.b.mp3".data = ".mp3".data := by decide
example : pySuffix "noext".data = [] := by decide
example : extKey "Song.M4A".data = "m4a".data := by decide
example : list_files [⟨"b.mp3".data, true⟩, ⟨"a.mp3".data, true⟩, ⟨"c.txt".data, true⟩, ⟨"d.mp3".data, false⟩] = ["a.mp3".data, "b.mp3".data] := by decide
example : debug_formats (some "http://x") (Except.error "boom") = Outcome.raised "boom" := by decide
